import Mathlib

/-!
Verification of the terrain-sampling subsystem of
`ObservationProcessor/HribHabitat_csv-ndjson.py`.

The Python source is shallowly embedded: machine floats become real
numbers, Python integers become `ℤ`/`ℕ`, fallible operations return
`Option`, the tile cache (a Python dict used only via membership test,
read and insert) becomes an association list, and the remote tile source
becomes an explicit function parameter.
-/

open Real

namespace HribHabitat

/-- Source constant `TILE_SIZE = 256` (line 38). -/
def TILE_SIZE : ℤ := 256

/-- Embeds the neighbor-resolution step of `get_elevation_grid`
(lines 160-170): starting from the candidate coordinate
`(ix + dx, iy + dy)` in tile `(tx, ty)`, the source applies four
sequential adjustments: `if x < 0: ttx -= 1; x += TILE_SIZE`,
`if y < 0: tty -= 1; y += TILE_SIZE`, `if x >= TILE_SIZE: ttx += 1;
x -= TILE_SIZE`, `if y >= TILE_SIZE: tty += 1; y -= TILE_SIZE`.
Returns `((ttx, tty), (x, y))`. -/
def resolveNeighbor (tx ty ix iy dx dy : ℤ) : (ℤ × ℤ) × (ℤ × ℤ) :=
  let x := ix + dx
  let y := iy + dy
  let ttx := tx
  let tty := ty
  let ttx := if x < 0 then ttx - 1 else ttx
  let x := if x < 0 then x + TILE_SIZE else x
  let tty := if y < 0 then tty - 1 else tty
  let y := if y < 0 then y + TILE_SIZE else y
  let ttx := if TILE_SIZE ≤ x then ttx + 1 else ttx
  let x := if TILE_SIZE ≤ x then x - TILE_SIZE else x
  let tty := if TILE_SIZE ≤ y then tty + 1 else tty
  let y := if TILE_SIZE ≤ y then y - TILE_SIZE else y
  ((ttx, tty), (x, y))

/-- Embeds `decode_terrarium` (lines 135-136): `(r * 256 + g + b / 256)
- 32768`, with Python's true division `b / 256` made exact in `ℚ`.
A total function: deterministic and defined (finite) on all inputs. -/
def decode_terrarium (r g b : ℕ) : ℚ :=
  (r * 256 + g + (b : ℚ) / 256) - 32768

/-- The decoding formula as the spec states it (section 4.4): the
channel-packed encoding `(r*256 + g + b/256) - 32768`. -/
def decode_spec_formula (r g b : ℕ) : ℚ :=
  (r * 256 + g + (b : ℚ) / 256) - 32768

/-- Embeds `fetch_tile` (lines 138-149): look the key `(z, x, y)` up in
the cache; on a hit return the cached tile, on a miss obtain the tile
from the remote source, store it under the key and return it. The
third component counts the remote fetches (`requests.get` calls)
performed by this call: `0` on a hit, `1` on a miss. -/
def fetch_tile {Tile : Type} (remote : ℤ × ℤ × ℤ → Tile) (z x y : ℤ)
    (cache : List ((ℤ × ℤ × ℤ) × Tile)) :
    Tile × List ((ℤ × ℤ × ℤ) × Tile) × ℕ :=
  match cache.lookup (z, x, y) with
  | some img => (img, cache, 0)
  | none =>
    let img := remote (z, x, y)
    (img, ((z, x, y), img) :: cache, 1)

/-- Embeds the control flow of the per-observation loop of the main
pipeline (lines 218-260): each row's enrichment (parsing, remote calls,
tile pipeline, record construction and write) is abstracted as
`enrich : Row → Except E Rec`. A row that enriches successfully
contributes its record to the output (first component, in order); a row
whose enrichment fails contributes nothing to the output, and its
exception is logged (second component) — the loop then continues with
the remaining rows. -/
def process_batch {Row Rec E : Type} (enrich : Row → Except E Rec) :
    List Row → List Rec × List E
  | [] => ([], [])
  | row :: rest =>
    let out := process_batch enrich rest
    match enrich row with
    | .ok rec => (rec :: out.1, out.2)
    | .error e => (out.1, e :: out.2)

noncomputable section

/-- Python's built-in `round` on a real argument: nearest integer,
ties (fractional part exactly one half) to the nearest even integer. -/
noncomputable def pyround (x : ℝ) : ℤ :=
  if Int.fract x = 1 / 2 then 2 * round (x / 2) else round x

/-- Python `round(x, 2)` used on the slope (line 187). -/
noncomputable def round2 (x : ℝ) : ℝ := (pyround (x * 100) : ℝ) / 100

/-- Python `round(x, 1)` used on the aspect (line 187). -/
noncomputable def round1 (x : ℝ) : ℝ := (pyround (x * 10) : ℝ) / 10

/-- Python `math.degrees`. -/
noncomputable def degrees (x : ℝ) : ℝ := x * 180 / π

/-- Python `math.atan2 y x` (C99 `atan2` on reals, without signed
zero): the angle of the point `(x, y)` in `(-π, π]`. Zero-sign
behavior (which the source exercises on flat grids, where it receives
`-0.0`) is modelled separately by `atan2sz`. -/
noncomputable def atan2 (y x : ℝ) : ℝ :=
  if 0 < x then arctan (y / x)
  else if x < 0 then
    (if 0 ≤ y then arctan (y / x) + π else arctan (y / x) - π)
  else if 0 < y then π / 2
  else if y < 0 then -(π / 2)
  else 0

/-- Python `math.atan2` with the IEEE zero signs made explicit:
`yNeg` and `xNeg` are the sign bits of `y` and `x` when those values
are zero (they are ignored on nonzero arguments, and a zero result's
sign is dropped, the reals having a single zero). Per C99 F.10.1.4,
`atan2(±0, x) = ±π` when `x < 0` or `x = -0`, and `±0` when `x > 0`
or `x = +0`; on nonzero `y` the zero signs are irrelevant. -/
noncomputable def atan2sz (y x : ℝ) (yNeg xNeg : Bool) : ℝ :=
  if y = 0 then
    (if x < 0 ∨ (x = 0 ∧ xNeg = true) then (if yNeg then -π else π) else 0)
  else atan2 y x

/-- Python `int(r)` on a float: truncation toward zero. -/
noncomputable def pytrunc (r : ℝ) : ℤ := if 0 ≤ r then ⌊r⌋ else ⌈r⌉

/-- Embeds the body of `latlon_to_pixel` (lines 128-133) given the
already-evaluated double `lat_rad = math.radians(lat)` — passed
explicitly, because in the double-precision source
`math.radians(90.0)` is `rad90double` (the IEEE double nearest
`π / 2`, strictly below it), not `π / 2` itself. The body raises
exactly when `1 / cos lat_rad` divides by zero (`ZeroDivisionError`)
or `math.log` receives a non-positive argument (`ValueError`),
modelled by `none`; `math.tan` itself is total. On success it returns
the truncated pixel pair `(int x, int y)`. -/
noncomputable def latlon_to_pixel (lat_rad lon : ℝ) (z : ℕ) : Option (ℤ × ℤ) :=
  if cos lat_rad = 0 then none
  else if tan lat_rad + 1 / cos lat_rad ≤ 0 then none
  else
    let n : ℝ := 2 ^ z
    let x := (lon + 180) / 360 * n * (TILE_SIZE : ℝ)
    let y := (1 - Real.log (tan lat_rad + 1 / cos lat_rad) / π) / 2 * n * (TILE_SIZE : ℝ)
    some (pytrunc x, pytrunc y)

/-- Horn finite difference `dzdx` of `calculate_slope_aspect`
(line 179); the grid is indexed `e row col`, row 0 = north,
col 0 = west. -/
noncomputable def dzdx (e : Fin 3 → Fin 3 → ℝ) : ℝ :=
  ((e 0 2 + 2 * e 1 2 + e 2 2) - (e 0 0 + 2 * e 1 0 + e 2 0)) / 8

/-- Horn finite difference `dzdy` of `calculate_slope_aspect`
(line 180). -/
noncomputable def dzdy (e : Fin 3 → Fin 3 → ℝ) : ℝ :=
  ((e 2 0 + 2 * e 2 1 + e 2 2) - (e 0 0 + 2 * e 0 1 + e 0 2)) / 8

/-- The slope before rounding (line 182):
`math.degrees(math.atan(math.sqrt(dzdx**2 + dzdy**2)))`. -/
noncomputable def slopeRaw (e : Fin 3 → Fin 3 → ℝ) : ℝ :=
  degrees (arctan (Real.sqrt (dzdx e ^ 2 + dzdy e ^ 2)))

/-- The aspect after normalization but before rounding (lines
183-185): `math.degrees(math.atan2(dzdy, -dzdx))`, plus 360 if
negative. -/
noncomputable def aspectRaw (e : Fin 3 → Fin 3 → ℝ) : ℝ :=
  let a := degrees (atan2 (dzdy e) (-dzdx e))
  if a < 0 then a + 360 else a

/-- Embeds `calculate_slope_aspect` (lines 178-187): returns
`(round(slope, 2), round(aspect, 1))`. -/
noncomputable def calculate_slope_aspect (e : Fin 3 → Fin 3 → ℝ) : ℝ × ℝ :=
  (round2 (slopeRaw e), round1 (aspectRaw e))

/-- The aspect written to the output record (lines 183-187) with the
IEEE zero signs of the source's code path made explicit: on this code
path a vanishing Horn difference is always `+0.0` (it arises as
`(s - s) / 8` under round-to-nearest), so `dzdy` carries zero-sign
bit `false` and the negation `-dzdx` carries zero-sign bit `true`. -/
noncomputable def aspectOutSigned (e : Fin 3 → Fin 3 → ℝ) : ℝ :=
  let a := degrees (atan2sz (dzdy e) (-dzdx e) false true)
  round1 (if a < 0 then a + 360 else a)

/-- The exact value of the IEEE double `math.radians(90.0)` computed
by the source: `884279719003555 / 2^49 = 1.5707963267948966...`, the
double closest to `π / 2` and strictly below it; `math.radians(-90.0)`
is exactly its negation. -/
noncomputable def rad90double : ℝ := 884279719003555 / 2 ^ 49

/-- A 3x3 grid sloping purely east as the spec's test describes it:
east column (col 2) at +8, west column (col 0) at -8, middle column 0. -/
noncomputable def gridEast : Fin 3 → Fin 3 → ℝ :=
  fun _ j => if j = 0 then -8 else if j = 2 then 8 else 0

/-- A 3x3 grid with a steep westward drop (west column at 10^7, east
column at -10^7) and a tiny southward drop (south-middle entry at -4):
its normalized aspect lies just below 360 degrees. -/
noncomputable def gridAlmostNorth : Fin 3 → Fin 3 → ℝ :=
  fun i j =>
    if j = 0 then 10000000 else if j = 2 then -10000000
    else if i = 2 then -4 else 0

end

/-- C1: for a center in-tile pixel `(ix, iy)` with both coordinates in
`[0, TILE_SIZE)` and an offset `(dx, dy)` in `{-1,0,1} x {-1,0,1}`, the
neighborhood assembler resolves the candidate `(ix+dx, iy+dy)` per
axis: a coordinate below 0 moves to the adjacent tile with index one
less at coordinate `candidate + TILE_SIZE`; a coordinate at or above
`TILE_SIZE` moves to the adjacent tile with index one greater at
`candidate - TILE_SIZE`; otherwise the same tile at the candidate
coordinate. -/
theorem resolveNeighbor_spec (tx ty ix iy dx dy : ℤ)
    (hix0 : 0 ≤ ix) (hix1 : ix < TILE_SIZE) (hiy0 : 0 ≤ iy) (hiy1 : iy < TILE_SIZE)
    (hdx0 : -1 ≤ dx) (hdx1 : dx ≤ 1) (hdy0 : -1 ≤ dy) (hdy1 : dy ≤ 1) :
    resolveNeighbor tx ty ix iy dx dy =
      ((if ix + dx < 0 then tx - 1 else if TILE_SIZE ≤ ix + dx then tx + 1 else tx,
        if iy + dy < 0 then ty - 1 else if TILE_SIZE ≤ iy + dy then ty + 1 else ty),
       (if ix + dx < 0 then ix + dx + TILE_SIZE
        else if TILE_SIZE ≤ ix + dx then ix + dx - TILE_SIZE else ix + dx,
        if iy + dy < 0 then iy + dy + TILE_SIZE
        else if TILE_SIZE ≤ iy + dy then iy + dy - TILE_SIZE else iy + dy)) := by
  simp only [resolveNeighbor, TILE_SIZE] at *
  split_ifs <;> simp_all [Prod.ext_iff] <;> omega

/-- Witness for C1: the center `(0, 0)` of tile `(5, 7)` has its
north-west neighbor in tile `(4, 6)` at in-tile pixel `(255, 255)`. -/
theorem resolveNeighbor_spec_witness :
    resolveNeighbor 5 7 0 0 (-1) (-1) = ((4, 6), (255, 255)) := by
  rw [resolveNeighbor_spec 5 7 0 0 (-1) (-1) (by decide) (by decide) (by decide)
    (by decide) (by decide) (by decide) (by decide) (by decide)]
  decide

/-- C9: the wrap adjustment shifts the tile index by at most one per
axis and the resolved in-tile coordinates always land back in
`[0, TILE_SIZE)`, so the subsequent pixel read is in bounds. -/
theorem resolveNeighbor_inBounds (tx ty ix iy dx dy : ℤ)
    (hix0 : 0 ≤ ix) (hix1 : ix < TILE_SIZE) (hiy0 : 0 ≤ iy) (hiy1 : iy < TILE_SIZE)
    (hdx0 : -1 ≤ dx) (hdx1 : dx ≤ 1) (hdy0 : -1 ≤ dy) (hdy1 : dy ≤ 1) :
    0 ≤ (resolveNeighbor tx ty ix iy dx dy).2.1 ∧
    (resolveNeighbor tx ty ix iy dx dy).2.1 < TILE_SIZE ∧
    0 ≤ (resolveNeighbor tx ty ix iy dx dy).2.2 ∧
    (resolveNeighbor tx ty ix iy dx dy).2.2 < TILE_SIZE ∧
    tx - 1 ≤ (resolveNeighbor tx ty ix iy dx dy).1.1 ∧
    (resolveNeighbor tx ty ix iy dx dy).1.1 ≤ tx + 1 ∧
    ty - 1 ≤ (resolveNeighbor tx ty ix iy dx dy).1.2 ∧
    (resolveNeighbor tx ty ix iy dx dy).1.2 ≤ ty + 1 := by
  simp only [resolveNeighbor, TILE_SIZE] at *
  split_ifs <;> simp_all <;> omega

/-- Witness for C9 at the east edge: center `(255, 0)` of tile
`(0, 0)` with offset `(1, -1)`. -/
theorem resolveNeighbor_inBounds_witness :
    0 ≤ (resolveNeighbor 0 0 255 0 1 (-1)).2.1 ∧
    (resolveNeighbor 0 0 255 0 1 (-1)).2.1 < TILE_SIZE ∧
    0 ≤ (resolveNeighbor 0 0 255 0 1 (-1)).2.2 ∧
    (resolveNeighbor 0 0 255 0 1 (-1)).2.2 < TILE_SIZE ∧
    0 - 1 ≤ (resolveNeighbor 0 0 255 0 1 (-1)).1.1 ∧
    (resolveNeighbor 0 0 255 0 1 (-1)).1.1 ≤ 0 + 1 ∧
    0 - 1 ≤ (resolveNeighbor 0 0 255 0 1 (-1)).1.2 ∧
    (resolveNeighbor 0 0 255 0 1 (-1)).1.2 ≤ 0 + 1 :=
  resolveNeighbor_inBounds 0 0 255 0 1 (-1) (by decide) (by decide) (by decide)
    (by decide) (by decide) (by decide) (by decide) (by decide)

/-- C6: on channel values in `[0, 255]` the decoder computes exactly
the spec's formula `(r*256 + g + b/256) - 32768` (it is a total,
deterministic function into `ℚ`), and `decode(128, 0, 0) = 0`. -/
theorem decode_terrarium_correct (r g b : ℕ)
    (hr : r ≤ 255) (hg : g ≤ 255) (hb : b ≤ 255) :
    decode_terrarium r g b = decode_spec_formula r g b ∧
    decode_terrarium 128 0 0 = 0 := by
  refine ⟨rfl, ?_⟩
  norm_num [decode_terrarium]

/-- Witness for C6 at `(0, 0, 0)`. -/
theorem decode_terrarium_correct_witness :
    decode_terrarium 0 0 0 = decode_spec_formula 0 0 0 ∧
    decode_terrarium 128 0 0 = 0 :=
  decode_terrarium_correct 0 0 0 (by decide) (by decide) (by decide)

/-- The decoded value as a single exact fraction over 256. -/
theorem decode_terrarium_eq (r g b : ℕ) :
    decode_terrarium r g b =
      ((65536 * (r : ℤ) + 256 * (g : ℤ) + (b : ℤ) - 8388608 : ℤ) : ℚ) / 256 := by
  simp only [decode_terrarium]
  push_cast
  ring

/-- C10: for channel values in `[0, 255]` the decoded elevation is an
exact integer multiple of `1/256`, lies in
`[-32768, 32767 + 255/256]`, and the decoder is injective on that
domain. -/
theorem decode_terrarium_precision (r g b r2 g2 b2 : ℕ)
    (hr : r ≤ 255) (hg : g ≤ 255) (hb : b ≤ 255)
    (hr2 : r2 ≤ 255) (hg2 : g2 ≤ 255) (hb2 : b2 ≤ 255) :
    (∃ k : ℤ, decode_terrarium r g b = (k : ℚ) / 256) ∧
    -32768 ≤ decode_terrarium r g b ∧
    decode_terrarium r g b ≤ 32767 + 255 / 256 ∧
    (decode_terrarium r g b = decode_terrarium r2 g2 b2 →
      r = r2 ∧ g = g2 ∧ b = b2) := by
  have hrq : (r : ℚ) ≤ 255 := by exact_mod_cast hr
  have hgq : (g : ℚ) ≤ 255 := by exact_mod_cast hg
  have hbq : (b : ℚ) ≤ 255 := by exact_mod_cast hb
  refine ⟨⟨65536 * (r : ℤ) + 256 * (g : ℤ) + (b : ℤ) - 8388608, decode_terrarium_eq r g b⟩,
    ?_, ?_, ?_⟩
  · rw [decode_terrarium_eq, le_div_iff (by norm_num : (0:ℚ) < 256)]
    push_cast
    have h0r : (0:ℚ) ≤ (r:ℚ) := Nat.cast_nonneg r
    have h0g : (0:ℚ) ≤ (g:ℚ) := Nat.cast_nonneg g
    have h0b : (0:ℚ) ≤ (b:ℚ) := Nat.cast_nonneg b
    linarith
  · rw [decode_terrarium_eq, div_le_iff (by norm_num : (0:ℚ) < 256)]
    push_cast
    linarith
  · intro h
    rw [decode_terrarium_eq, decode_terrarium_eq] at h
    have h2 : 65536 * (r : ℤ) + 256 * (g : ℤ) + (b : ℤ) =
        65536 * (r2 : ℤ) + 256 * (g2 : ℤ) + (b2 : ℤ) := by
      field_simp at h
      exact_mod_cast h
    refine ⟨?_, ?_, ?_⟩ <;> omega

/-- Witness for C10 at `(12, 34, 56)` against `(12, 34, 57)`. -/
theorem decode_terrarium_precision_witness :
    (∃ k : ℤ, decode_terrarium 12 34 56 = (k : ℚ) / 256) ∧
    -32768 ≤ decode_terrarium 12 34 56 ∧
    decode_terrarium 12 34 56 ≤ 32767 + 255 / 256 ∧
    (decode_terrarium 12 34 56 = decode_terrarium 12 34 57 →
      12 = 12 ∧ 34 = 34 ∧ 56 = 57) :=
  decode_terrarium_precision 12 34 56 12 34 57 (by decide) (by decide) (by decide)
    (by decide) (by decide) (by decide)

/-- C7 (as stated, refuted): with the key already cached, two
successive calls with the identical key perform zero remote fetches,
not exactly one. -/
theorem fetch_tile_counterexample :
    ¬ ((fetch_tile (fun _ => (0 : ℕ)) 15 3 4 [((15, 3, 4), 9)]).2.2 +
       (fetch_tile (fun _ => (0 : ℕ)) 15 3 4
         (fetch_tile (fun _ => (0 : ℕ)) 15 3 4 [((15, 3, 4), 9)]).2.1).2.2 = 1) := by
  decide

/-- C7 (amended): two successive `fetch_tile` calls with an identical
key perform at most one remote fetch in total, and exactly one when
the key is absent from the starting cache; the second call is always a
cache hit (zero fetches) returning the same tile and leaving the cache
unchanged, and the stored tile under the key is the returned one. -/
theorem fetch_tile_cache_hit {Tile : Type} (remote : ℤ × ℤ × ℤ → Tile) (z x y : ℤ)
    (cache : List ((ℤ × ℤ × ℤ) × Tile)) :
    (fetch_tile remote z x y (fetch_tile remote z x y cache).2.1).2.2 = 0 ∧
    (fetch_tile remote z x y (fetch_tile remote z x y cache).2.1).1 =
      (fetch_tile remote z x y cache).1 ∧
    (fetch_tile remote z x y (fetch_tile remote z x y cache).2.1).2.1 =
      (fetch_tile remote z x y cache).2.1 ∧
    ((fetch_tile remote z x y cache).2.1).lookup (z, x, y) =
      some (fetch_tile remote z x y cache).1 ∧
    (fetch_tile remote z x y cache).2.2 +
      (fetch_tile remote z x y (fetch_tile remote z x y cache).2.1).2.2 ≤ 1 ∧
    (cache.lookup (z, x, y) = none →
      (fetch_tile remote z x y cache).2.2 +
        (fetch_tile remote z x y (fetch_tile remote z x y cache).2.1).2.2 = 1) := by
  cases h : cache.lookup (z, x, y) with
  | none => simp [fetch_tile, h, List.lookup]
  | some t => simp [fetch_tile, h]

/-- Witness for C7 (amended) on the empty starting cache. -/
theorem fetch_tile_cache_hit_witness :
    (fetch_tile (fun _ => (37 : ℕ)) 15 3 4
      (fetch_tile (fun _ => (37 : ℕ)) 15 3 4 []).2.1).2.2 = 0 ∧
    (fetch_tile (fun _ => (37 : ℕ)) 15 3 4
      (fetch_tile (fun _ => (37 : ℕ)) 15 3 4 []).2.1).1 =
      (fetch_tile (fun _ => (37 : ℕ)) 15 3 4 []).1 ∧
    (fetch_tile (fun _ => (37 : ℕ)) 15 3 4
      (fetch_tile (fun _ => (37 : ℕ)) 15 3 4 []).2.1).2.1 =
      (fetch_tile (fun _ => (37 : ℕ)) 15 3 4 []).2.1 ∧
    ((fetch_tile (fun _ => (37 : ℕ)) 15 3 4 []).2.1).lookup (15, 3, 4) =
      some (fetch_tile (fun _ => (37 : ℕ)) 15 3 4 []).1 ∧
    (fetch_tile (fun _ => (37 : ℕ)) 15 3 4 []).2.2 +
      (fetch_tile (fun _ => (37 : ℕ)) 15 3 4
        (fetch_tile (fun _ => (37 : ℕ)) 15 3 4 []).2.1).2.2 ≤ 1 ∧
    (([] : List ((ℤ × ℤ × ℤ) × ℕ)).lookup (15, 3, 4) = none →
      (fetch_tile (fun _ => (37 : ℕ)) 15 3 4 []).2.2 +
        (fetch_tile (fun _ => (37 : ℕ)) 15 3 4
          (fetch_tile (fun _ => (37 : ℕ)) 15 3 4 []).2.1).2.2 = 1) :=
  fetch_tile_cache_hit (fun _ => (37 : ℕ)) 15 3 4 []

/-- C8: a row whose enrichment fails is skipped — its exception is
logged, no output record is produced for it, and the outputs of the
surrounding rows are exactly those produced with the failing row
absent, so one failing record never aborts the batch. -/
theorem process_batch_isolates_failure {Row Rec E : Type}
    (enrich : Row → Except E Rec) (pre post : List Row) (row : Row) (e : E)
    (h : enrich row = .error e) :
    (process_batch enrich (pre ++ row :: post)).1 =
      (process_batch enrich pre).1 ++ (process_batch enrich post).1 ∧
    e ∈ (process_batch enrich (pre ++ row :: post)).2 := by
  induction pre with
  | nil => simp [process_batch, h]
  | cons r rest ih =>
    cases henr : enrich r with
    | ok rec => simpa [process_batch, henr] using ih
    | error e2 =>
      refine ⟨by simpa [process_batch, henr] using ih.1, ?_⟩
      simp only [List.cons_append, process_batch, henr]
      exact List.mem_cons_of_mem e2 ih.2

/-- Witness for C8: in the batch `[1, 0, 2]` where row `0` fails with
exception `7`, rows `1` and `2` still produce their outputs and `7` is
logged. -/
theorem process_batch_isolates_failure_witness :
    (process_batch (fun n => if n = 0 then Except.error 7 else Except.ok n)
      ([1] ++ 0 :: [2])).1 =
      (process_batch (fun n => if n = 0 then Except.error 7 else Except.ok n) [1]).1 ++
      (process_batch (fun n => if n = 0 then Except.error 7 else Except.ok n) [2]).1 ∧
    7 ∈ (process_batch (fun n => if n = 0 then Except.error 7 else Except.ok n)
      ([1] ++ 0 :: [2])).2 :=
  process_batch_isolates_failure _ [1] [2] 0 7 rfl

/-- `pyround` agrees with any integer within strict distance one half. -/
theorem pyround_eq (n : ℤ) (x : ℝ) (h1 : (n : ℝ) - 1 / 2 < x)
    (h2 : x < (n : ℝ) + 1 / 2) : pyround x = n := by
  have hf : Int.fract x ≠ 1 / 2 := by
    intro hf
    have hx : x = (⌊x⌋ : ℝ) + 1 / 2 := by
      have h := Int.floor_add_fract x
      rw [hf] at h
      linarith
    have hl : (n : ℝ) - 1 < (⌊x⌋ : ℝ) := by linarith
    have hr : ((⌊x⌋ : ℝ)) < n := by linarith
    have hl2 : n - 1 < ⌊x⌋ := by exact_mod_cast hl
    have hr2 : ⌊x⌋ < n := by exact_mod_cast hr
    omega
  rw [pyround, if_neg hf, round_eq]
  rw [Int.floor_eq_iff]
  constructor
  · linarith
  · push_cast
    linarith

/-- `pyround` never moves its argument by more than one half. -/
theorem pyround_near (x : ℝ) :
    x - 1 / 2 ≤ (pyround x : ℝ) ∧ (pyround x : ℝ) ≤ x + 1 / 2 := by
  rw [pyround]
  split_ifs with hf
  · have hx : x = (⌊x⌋ : ℝ) + 1 / 2 := by
      have h := Int.floor_add_fract x
      rw [hf] at h
      linarith
    rcases Int.even_or_odd ⌊x⌋ with ⟨m, hm⟩ | ⟨m, hm⟩
    · have hr : round (x / 2) = m := by
        rw [round_eq, Int.floor_eq_iff]
        rw [hx, hm]
        push_cast
        constructor <;> linarith
      rw [hr, hx, hm]
      push_cast
      constructor <;> linarith
    · have hr : round (x / 2) = m + 1 := by
        rw [round_eq, Int.floor_eq_iff]
        rw [hx, hm]
        push_cast
        constructor <;> linarith
      rw [hr, hx, hm]
      push_cast
      constructor <;> linarith
  · rw [round_eq]
    have hle := Int.floor_le (x + 1 / 2)
    have hgt := Int.sub_one_lt_floor (x + 1 / 2)
    constructor <;> linarith

/-- `arctan` is below the identity on the nonnegative reals. -/
theorem arctan_le_self_of_nonneg {u : ℝ} (h : 0 ≤ u) : arctan u ≤ u := by
  rcases eq_or_lt_of_le h with rfl | hpos
  · simp
  · have h1 : 0 < arctan u := by
      have h2 := arctan_strictMono hpos
      rwa [arctan_zero] at h2
    have h3 := Real.lt_tan h1 (arctan_lt_pi_div_two u)
    rw [tan_arctan] at h3
    exact h3.le

/-- `arctan` is positive on positive arguments. -/
theorem arctan_pos_of_pos {u : ℝ} (h : 0 < u) : 0 < arctan u := by
  have h2 := arctan_strictMono h
  rwa [arctan_zero] at h2

/-- The embedded `atan2` ranges over `(-π, π]`. -/
theorem atan2_mem_Ioc (y x : ℝ) : -π < atan2 y x ∧ atan2 y x ≤ π := by
  have hπ := pi_pos
  have ha1 := arctan_lt_pi_div_two (y / x)
  have ha2 := neg_pi_div_two_lt_arctan (y / x)
  rw [atan2]
  split_ifs with h1 h2 h3 h4 h5
  · constructor <;> linarith
  · have hyx : y / x ≤ 0 := div_nonpos_iff.mpr (Or.inl ⟨h3, h2.le⟩)
    have hneg : arctan (y / x) ≤ 0 := by
      have h6 := arctan_strictMono.monotone hyx
      rwa [arctan_zero] at h6
    constructor <;> linarith
  · have hyx : 0 < y / x := div_pos_of_neg_of_neg (not_le.mp h3) h2
    have hpos := arctan_pos_of_pos hyx
    constructor <;> linarith
  · constructor <;> linarith
  · constructor <;> linarith
  · constructor <;> linarith

/-- C2 (code bug): on a flat grid the source's two Horn differences
are both `+0.0`, so the negation hands `math.atan2` the pair
`(+0.0, -0.0)`, whose value is `π`; with the zero signs modelled
explicitly, the program therefore writes aspect `180.0` on the
all-zero flat grid — not the claimed `0.0` (its slope is `0.0` as
claimed, and no error is raised). -/
theorem calculate_slope_aspect_flat_bug :
    (calculate_slope_aspect (fun _ _ => (0 : ℝ))).1 = 0 ∧
    atan2sz 0 0 false true = π ∧
    aspectOutSigned (fun _ _ => (0 : ℝ)) = 180 := by
  have hx : dzdx (fun _ _ => (0 : ℝ)) = 0 := by simp [dzdx]
  have hy : dzdy (fun _ _ => (0 : ℝ)) = 0 := by simp [dzdy]
  have hsz : atan2sz 0 0 false true = π := by norm_num [atan2sz]
  refine ⟨?_, hsz, ?_⟩
  · have hs : slopeRaw (fun _ _ => (0 : ℝ)) = 0 := by
      rw [slopeRaw, hx, hy]
      norm_num [degrees]
    simp only [calculate_slope_aspect]
    rw [hs, round2, show ((0 : ℝ) * 100) = 0 by norm_num,
      pyround_eq 0 0 (by norm_num) (by norm_num)]
    norm_num
  · simp only [aspectOutSigned]
    rw [hy, hx, neg_zero, hsz]
    have hdeg : degrees π = 180 := by
      rw [degrees, mul_comm, mul_div_assoc, div_self pi_ne_zero, mul_one]
    rw [hdeg, if_neg (by norm_num : ¬ (180 : ℝ) < 0), round1,
      show ((180 : ℝ) * 10) = 1800 by norm_num,
      pyround_eq 1800 1800 (by norm_num) (by norm_num)]
    norm_num

/-- C5 (code bug): in double precision the source does not raise at
the poles. Its `lat_rad` at latitude `±90.0` is `±rad90double`,
strictly inside `(-π/2, π/2)`, so `cos lat_rad > 0`, the argument of
`math.log` is positive, and `latlon_to_pixel` returns a pixel pair
for every longitude and zoom — the claimed domain error at `±90`
never occurs; the projection silently returns a misprojected pixel
instead of failing. -/
theorem latlon_to_pixel_pole_bug (lon : ℝ) (z : ℕ) :
    rad90double < π / 2 ∧
    0 < cos rad90double ∧
    (∃ p, latlon_to_pixel rad90double lon z = some p) ∧
    (∃ p, latlon_to_pixel (-rad90double) lon z = some p) := by
  have hπ20 : (3.14159265358979323846 : ℝ) < π := pi_gt_d20
  have hlt : rad90double < π / 2 := by
    have h1 : rad90double < 1.57079632679489661923 := by
      rw [rad90double]
      norm_num
    linarith
  have h0 : 0 < rad90double := by
    rw [rad90double]
    norm_num
  have hcos : 0 < cos rad90double :=
    cos_pos_of_mem_Ioo ⟨by linarith [pi_pos], hlt⟩
  have hc2 : 0 < cos rad90double ^ 2 := pow_pos hcos 2
  have hsq := sin_sq_add_cos_sq rad90double
  have hsin_gt : -1 < sin rad90double := by
    nlinarith [sq_nonneg (sin rad90double + 1)]
  have hsin_lt : sin rad90double < 1 := by
    nlinarith [sq_nonneg (sin rad90double - 1)]
  have hpos : 0 < tan rad90double + 1 / cos rad90double := by
    rw [tan_eq_sin_div_cos, div_add_div_same]
    exact div_pos (by linarith) hcos
  have hneg : 0 < -tan rad90double + 1 / cos rad90double := by
    rw [tan_eq_sin_div_cos]
    have heq : -(sin rad90double / cos rad90double) + 1 / cos rad90double =
        (1 - sin rad90double) / cos rad90double := by
      ring
    rw [heq]
    exact div_pos (by linarith) hcos
  refine ⟨hlt, hcos, ?_, ?_⟩
  · simp only [latlon_to_pixel]
    rw [if_neg hcos.ne', if_neg (not_le.mpr hpos)]
    exact ⟨_, rfl⟩
  · simp only [latlon_to_pixel]
    rw [tan_neg, cos_neg, if_neg hcos.ne', if_neg (not_le.mpr hneg)]
    exact ⟨_, rfl⟩

/-- Horn `dzdx` of the east-sloping grid. -/
theorem gridEast_dzdx : dzdx gridEast = 8 := by
  have hf20 : ¬ ((2 : Fin 3) = 0) := by decide
  have hf12 : ¬ ((1 : Fin 3) = 2) := by decide
  have hf10 : ¬ ((1 : Fin 3) = 0) := by decide
  have hf02 : ¬ ((0 : Fin 3) = 2) := by decide
  norm_num [dzdx, gridEast, hf20, hf12, hf10, hf02]

/-- Horn `dzdy` of the east-sloping grid. -/
theorem gridEast_dzdy : dzdy gridEast = 0 := by
  have hf20 : ¬ ((2 : Fin 3) = 0) := by decide
  have hf12 : ¬ ((1 : Fin 3) = 2) := by decide
  have hf10 : ¬ ((1 : Fin 3) = 0) := by decide
  have hf02 : ¬ ((0 : Fin 3) = 2) := by decide
  norm_num [dzdy, gridEast, hf20, hf12, hf10, hf02]

/-- The east-sloping grid's output aspect is exactly 180 degrees. -/
theorem gridEast_aspect_out : (calculate_slope_aspect gridEast).2 = 180 := by
  have ha : aspectRaw gridEast = 180 := by
    simp only [aspectRaw, gridEast_dzdy, gridEast_dzdx]
    have h2 : atan2 (0 : ℝ) (-(8 : ℝ)) = π := by
      rw [atan2, if_neg (by norm_num), if_pos (by norm_num), if_pos (by norm_num)]
      norm_num
    rw [h2]
    have h3 : degrees π = 180 := by
      rw [degrees, mul_comm, mul_div_assoc, div_self pi_ne_zero, mul_one]
    rw [h3]
    norm_num
  simp only [calculate_slope_aspect]
  rw [ha, round1, show (180 : ℝ) * 10 = 1800 by norm_num,
    pyround_eq 1800 1800 (by norm_num) (by norm_num)]
  norm_num

/-- The east-sloping grid's output slope is `degrees (arctan 8)`
rounded to two decimals. -/
theorem gridEast_slope_eq :
    (calculate_slope_aspect gridEast).1 = round2 (degrees (arctan 8)) := by
  have hs : slopeRaw gridEast = degrees (arctan 8) := by
    rw [slopeRaw, gridEast_dzdx, gridEast_dzdy,
      show (8 : ℝ) ^ 2 + 0 ^ 2 = 8 ^ 2 by norm_num,
      Real.sqrt_sq (by norm_num : (0 : ℝ) ≤ 8)]
  simp only [calculate_slope_aspect]
  rw [hs]

/-- The east-sloping grid's output slope exceeds 45 degrees. -/
theorem gridEast_slope_bound : 45 < (calculate_slope_aspect gridEast).1 := by
  rw [gridEast_slope_eq]
  have hπ4 : (3.1415 : ℝ) < π := pi_gt_d4
  have hπ := pi_pos
  have hπ0 : π ≠ 0 := pi_ne_zero
  have harc : arctan (8 : ℝ) = π / 2 - arctan ((8 : ℝ)⁻¹) := by
    have h := arctan_inv_of_pos (show (0 : ℝ) < 8 by norm_num)
    linarith
  have hin : arctan ((8 : ℝ)⁻¹) ≤ (8 : ℝ)⁻¹ := arctan_le_self_of_nonneg (by norm_num)
  have hin0 : 0 ≤ arctan ((8 : ℝ)⁻¹) := by
    have h := arctan_strictMono.monotone (show (0 : ℝ) ≤ (8 : ℝ)⁻¹ by norm_num)
    rwa [arctan_zero] at h
  have hX : degrees (arctan 8) * 100 = 9000 - 18000 * (arctan ((8 : ℝ)⁻¹) / π) := by
    rw [degrees, harc]
    field_simp
    ring
  have hfrac : arctan ((8 : ℝ)⁻¹) / π ≤ (8 : ℝ)⁻¹ / 3.1415 :=
    div_le_div (by norm_num) hin (by norm_num) hπ4.le
  have hXlb : (8283 : ℝ) < degrees (arctan 8) * 100 := by
    rw [hX]
    linarith
  have hnear := pyround_near (degrees (arctan 8) * 100)
  have hp : (8282 : ℝ) < (pyround (degrees (arctan 8) * 100) : ℝ) := by
    linarith [hnear.1]
  have hpz : (8283 : ℤ) ≤ pyround (degrees (arctan 8) * 100) := by
    have h2 : (8282 : ℤ) < pyround (degrees (arctan 8) * 100) := by exact_mod_cast hp
    omega
  have hp2 : (8283 : ℝ) ≤ (pyround (degrees (arctan 8) * 100) : ℝ) := by
    exact_mod_cast hpz
  rw [round2]
  linarith

/-- C4 (as stated, refuted): on the grid sloping purely east with
columns -8, 0, +8 the estimator does not return aspect 90 (it returns
180.0) and does not return slope 45 (the slope exceeds 45 degrees). -/
theorem calculate_slope_aspect_east_counterexample :
    (calculate_slope_aspect gridEast).2 ≠ 90 ∧
    (calculate_slope_aspect gridEast).1 ≠ 45 := by
  constructor
  · rw [gridEast_aspect_out]
    norm_num
  · exact ne_of_gt gridEast_slope_bound

/-- C4 (amended): on the grid sloping purely east (east column +8,
west column -8, middle 0) the Horn differences are `dzdx = 8`,
`dzdy = 0`, so the estimator returns slope `degrees (arctan 8)`
rounded to two decimals — strictly above 45 degrees, not
`atan(1) = 45` — and aspect exactly 180.0, not approximately 90. -/
theorem calculate_slope_aspect_east :
    (calculate_slope_aspect gridEast).1 = round2 (degrees (arctan 8)) ∧
    45 < (calculate_slope_aspect gridEast).1 ∧
    (calculate_slope_aspect gridEast).2 = 180 :=
  ⟨gridEast_slope_eq, gridEast_slope_bound, gridEast_aspect_out⟩

/-- Horn `dzdx` of the almost-north-facing grid. -/
theorem gridAlmostNorth_dzdx : dzdx gridAlmostNorth = -10000000 := by
  have hf20 : ¬ ((2 : Fin 3) = 0) := by decide
  have hf12 : ¬ ((1 : Fin 3) = 2) := by decide
  have hf10 : ¬ ((1 : Fin 3) = 0) := by decide
  have hf02 : ¬ ((0 : Fin 3) = 2) := by decide
  norm_num [dzdx, gridAlmostNorth, hf20, hf12, hf10, hf02]

/-- Horn `dzdy` of the almost-north-facing grid. -/
theorem gridAlmostNorth_dzdy : dzdy gridAlmostNorth = -1 := by
  have hf20 : ¬ ((2 : Fin 3) = 0) := by decide
  have hf12 : ¬ ((1 : Fin 3) = 2) := by decide
  have hf10 : ¬ ((1 : Fin 3) = 0) := by decide
  have hf02 : ¬ ((0 : Fin 3) = 2) := by decide
  norm_num [dzdy, gridAlmostNorth, hf20, hf12, hf10, hf02]

/-- The almost-north-facing grid's normalized aspect is just below 360
degrees, and the one-decimal rounding carries it up to exactly 360. -/
theorem gridAlmostNorth_aspect_out :
    (calculate_slope_aspect gridAlmostNorth).2 = 360 := by
  have hπ := pi_pos
  have hπ4 : (3.1415 : ℝ) < π := pi_gt_d4
  have hA0 : 0 < arctan ((10000000 : ℝ)⁻¹) := arctan_pos_of_pos (by norm_num)
  have hA1 : arctan ((10000000 : ℝ)⁻¹) ≤ (10000000 : ℝ)⁻¹ :=
    arctan_le_self_of_nonneg (by norm_num)
  have hatan : atan2 (-1 : ℝ) (-(-10000000 : ℝ)) = -arctan ((10000000 : ℝ)⁻¹) := by
    rw [atan2, if_pos (by norm_num : (0 : ℝ) < -(-10000000 : ℝ)),
      show (-1 : ℝ) / -(-10000000 : ℝ) = -((10000000 : ℝ)⁻¹) by norm_num,
      arctan_neg]
  have hd0 : 0 < arctan ((10000000 : ℝ)⁻¹) * 180 / π :=
    div_pos (by nlinarith) hπ
  have hdle : arctan ((10000000 : ℝ)⁻¹) * 180 / π ≤
      (10000000 : ℝ)⁻¹ * 180 / 3.1415 :=
    div_le_div (by norm_num) (by nlinarith) (by norm_num) hπ4.le
  have hdsmall : arctan ((10000000 : ℝ)⁻¹) * 180 / π < 0.00001 :=
    lt_of_le_of_lt hdle (by norm_num)
  have haspect : aspectRaw gridAlmostNorth =
      360 - arctan ((10000000 : ℝ)⁻¹) * 180 / π := by
    simp only [aspectRaw, gridAlmostNorth_dzdy, gridAlmostNorth_dzdx]
    rw [hatan, show degrees (-arctan ((10000000 : ℝ)⁻¹)) =
      -(arctan ((10000000 : ℝ)⁻¹) * 180 / π) by rw [degrees]; ring]
    rw [if_pos (by linarith)]
    ring
  simp only [calculate_slope_aspect]
  rw [haspect, round1]
  have h36 : pyround ((360 - arctan ((10000000 : ℝ)⁻¹) * 180 / π) * 10) = 3600 := by
    apply pyround_eq
    · push_cast
      linarith
    · push_cast
      linarith
  rw [h36]
  norm_num

/-- C3 (as stated, refuted): the rounded `slope_aspect_deg` written to
the output can equal 360.0, which is outside `[0, 360)`. -/
theorem aspect_round_counterexample :
    (calculate_slope_aspect gridAlmostNorth).2 = 360 ∧
    ¬ ((calculate_slope_aspect gridAlmostNorth).2 < 360) := by
  refine ⟨gridAlmostNorth_aspect_out, ?_⟩
  rw [gridAlmostNorth_aspect_out]
  exact lt_irrefl 360

/-- C3 (amended): for every 3x3 grid the normalized aspect before
rounding lies in `[0, 360)`; the value placed in the output record
after the one-decimal rounding lies in the closed interval
`[0, 360]` (it can equal 360.0 exactly). -/
theorem aspect_range (e : Fin 3 → Fin 3 → ℝ) :
    0 ≤ aspectRaw e ∧ aspectRaw e < 360 ∧
    0 ≤ (calculate_slope_aspect e).2 ∧ (calculate_slope_aspect e).2 ≤ 360 := by
  have hπ := pi_pos
  obtain ⟨hlo, hhi⟩ := atan2_mem_Ioc (dzdy e) (-dzdx e)
  have hd_hi : degrees (atan2 (dzdy e) (-dzdx e)) ≤ 180 := by
    rw [degrees, div_le_iff hπ]
    nlinarith
  have hd_lo : -180 < degrees (atan2 (dzdy e) (-dzdx e)) := by
    rw [degrees, lt_div_iff hπ]
    nlinarith
  have h1 : 0 ≤ aspectRaw e ∧ aspectRaw e < 360 := by
    simp only [aspectRaw]
    split_ifs with h
    · constructor <;> linarith
    · constructor <;> linarith [not_lt.mp h]
  refine ⟨h1.1, h1.2, ?_, ?_⟩
  · simp only [calculate_slope_aspect]
    rw [round1]
    have hn := pyround_near (aspectRaw e * 10)
    have hgt : (-1 : ℝ) < (pyround (aspectRaw e * 10) : ℝ) := by
      linarith [h1.1, hn.1]
    have hz : (0 : ℤ) ≤ pyround (aspectRaw e * 10) := by
      have h2 : (-1 : ℤ) < pyround (aspectRaw e * 10) := by exact_mod_cast hgt
      omega
    have hz2 : (0 : ℝ) ≤ (pyround (aspectRaw e * 10) : ℝ) := by exact_mod_cast hz
    exact div_nonneg hz2 (by norm_num)
  · simp only [calculate_slope_aspect]
    rw [round1]
    have hn := pyround_near (aspectRaw e * 10)
    have hlt : (pyround (aspectRaw e * 10) : ℝ) < 3601 := by
      linarith [h1.2, hn.2]
    have hz : pyround (aspectRaw e * 10) ≤ 3600 := by
      have h2 : pyround (aspectRaw e * 10) < (3601 : ℤ) := by exact_mod_cast hlt
      omega
    have hz2 : (pyround (aspectRaw e * 10) : ℝ) ≤ 3600 := by exact_mod_cast hz
    linarith

end HribHabitat
